import Mathlib

/-!
Verification of the moderation-chat backend (`backend/src/socketHandler.js`,
`backend/src/moderationService.js`, `backend/src/aiService.js`,
`backend/src/config.js`) against its natural-language specification.

Conventions of the shallow embedding:
* JavaScript strings are modelled as `List Char` (`Str`); `String.prototype.trim`
  is `jsTrim`, string `.length` is list length (UTF-16 code-unit subtleties are
  immaterial to the verified claims).
* JSON / JavaScript runtime values are modelled by `JVal`; JavaScript truthiness
  by `truthy`.  `JSON.parse` is an abstract parameter `jparse : Str → Option JVal`
  (`none` = the parse throws), universally quantified in the theorems.
* Numbers are modelled by `ℚ`; floating-point rounding plays no role in any
  verified claim.
* A thrown JavaScript exception is an `Except.error`; network calls are oracles
  supplied as arguments (`Except`/`Upstream` values), so each Lean function is
  total and deterministic given its oracles.
* Environment-derived configuration (`config.js`) is a `Config` record argument.
-/

namespace ChatMod

/-- JavaScript strings, as lists of characters. -/
abbrev Str := List Char

/-- Whitespace in the sense of `String.prototype.trim`. -/
def jsWS (c : Char) : Bool :=
  c = ' ' || c = '\t' || c = '\n' || c = '\x0d' || c = '\x0b' || c = '\x0c'

/-- JavaScript `String.prototype.trim`: drop whitespace from both ends. -/
def jsTrim (s : Str) : Str :=
  ((s.dropWhile jsWS).reverse.dropWhile jsWS).reverse

/-- One decimal digit as a character (`0 ≤ n ≤ 9` in every use). -/
def digitCh (n : ℕ) : Char := Char.ofNat (48 + n % 10)

/-- Fuel-driven decimal rendering, structural so that the kernel can
evaluate it (`natDigits` wraps it with sufficient fuel). -/
def natDigitsGo : ℕ → ℕ → Str
  | 0, _ => []
  | fuel + 1, n =>
    if n < 10 then [digitCh n] else natDigitsGo fuel (n / 10) ++ [digitCh (n % 10)]

/-- Decimal rendering of a natural number, as JavaScript renders an integer
(`Date.now()` interpolated into a template literal). -/
def natDigits (n : ℕ) : Str := natDigitsGo (n + 1) n

/-- Decimal digits re-read as a number (used only to prove `natDigits` injective). -/
def digitsVal (s : Str) : ℕ := s.foldl (fun a c => a * 10 + (c.toNat - 48)) 0

theorem digitsVal_append (s : Str) (c : Char) :
    digitsVal (s ++ [c]) = digitsVal s * 10 + (c.toNat - 48) := by
  simp [digitsVal]

theorem digitsVal_natDigitsGo (fuel n : ℕ) (h : n < fuel) :
    digitsVal (natDigitsGo fuel n) = n := by
  induction fuel generalizing n with
  | zero => omega
  | succ fuel ih =>
    rw [natDigitsGo]
    by_cases h10 : n < 10
    · simp only [if_pos h10, digitsVal, List.foldl]
      interval_cases n <;> decide
    · simp only [if_neg h10]
      rw [digitsVal_append, ih (n / 10) (by omega)]
      have hd : (digitCh (n % 10)).toNat - 48 = n % 10 := by
        have hlt : n % 10 < 10 := Nat.mod_lt _ (by norm_num)
        generalize n % 10 = k at *
        interval_cases k <;> decide
      rw [hd]
      omega

theorem natDigits_injective {m n : ℕ} (h : natDigits m = natDigits n) : m = n := by
  have hm := digitsVal_natDigitsGo (m + 1) m (Nat.lt_succ_self m)
  have hn := digitsVal_natDigitsGo (n + 1) n (Nat.lt_succ_self n)
  rw [natDigits] at h
  rw [← hm, ← hn, h, natDigits]

theorem digitCh_ne_dash (n : ℕ) : digitCh n ≠ '-' := by
  have h : n % 10 < 10 := Nat.mod_lt _ (by norm_num)
  unfold digitCh
  generalize n % 10 = k at *
  interval_cases k <;> decide

theorem natDigitsGo_no_dash (fuel n : ℕ) : '-' ∉ natDigitsGo fuel n := by
  induction fuel generalizing n with
  | zero => simp [natDigitsGo]
  | succ fuel ih =>
    rw [natDigitsGo]
    by_cases h10 : n < 10
    · simp only [if_pos h10, List.mem_singleton]
      exact fun h => digitCh_ne_dash n h.symm
    · simp only [if_neg h10, List.mem_append, List.mem_singleton]
      rintro (h | h)
      · exact ih _ h
      · exact digitCh_ne_dash (n % 10) h.symm

theorem natDigits_no_dash (n : ℕ) : '-' ∉ natDigits n := natDigitsGo_no_dash _ _

/-! ## JavaScript runtime values -/

/-- A JavaScript/JSON runtime value, as far as the moderation client inspects
them (`undefined` for an absent property is represented by `Option.none` at
lookup sites). -/
inductive JVal where
  | num (q : ℚ)
  | str (s : Str)
  | bool (b : Bool)
  | null
  | arr (xs : List JVal)
  | obj (fields : List (Str × JVal))

/-- JavaScript truthiness of a value (`NaN` does not arise in the `ℚ` model). -/
def truthy : JVal → Bool
  | .num q => q ≠ 0
  | .str s => s ≠ []
  | .bool b => b
  | .null => false
  | .arr _ => true
  | .obj _ => true

/-- Property lookup on an object's field list (object keys are unique, so
first-match association lookup is exact). -/
def jget (fields : List (Str × JVal)) (k : Str) : Option JVal :=
  (fields.find? (fun p => p.1 = k)).map (·.2)

/-- The JavaScript idiom `scores[k1] || scores[k2] || … || 0`: the first truthy
value among the present keys, else the number `0`. -/
def chainLookup (fields : List (Str × JVal)) : List Str → JVal
  | [] => .num 0
  | k :: ks =>
    match jget fields k with
    | some v => if truthy v then v else chainLookup fields ks
    | none => chainLookup fields ks

/-! ## Moderation client (`moderationService.js`) -/

/-- The toxicity-category catalog of `parseModerationResponse`, in source order
(underscore, slash, and space naming conventions). -/
def toxicCategories : List Str :=
  ["violence_graphic", "violence", "sexual_minors", "sexual", "self_harm_intent",
   "self_harm_instructions", "self_harm", "hate_threatening", "hate",
   "harassment_threatening", "harassment", "illicit_violent", "illicit",
   "violence/graphic", "sexual/minors", "self-harm/intent", "self-harm/instructions",
   "self-harm", "hate/threatening", "harassment/threatening", "illicit/violent",
   "violence graphic", "sexual minors", "self harm", "hate threatening",
   "harassment threatening"].map String.toList

/-- The candidate keys tried for one category:
`scores[category] || scores[categoryLower] || scores[category+"_score"] || …`.
Every listed category is already lower-case, so `category.toLowerCase()`
coincides with `category` and the six-step chain repeats each suffix twice. -/
def categoryKeys (c : Str) : List Str :=
  [c, c, c ++ "_score".toList, c ++ "_score".toList, c ++ "Score".toList, c ++ "Score".toList]

/-- The value the category loop reads for category `c`. -/
def catScoreVal (fields : List (Str × JVal)) (c : Str) : JVal :=
  chainLookup fields (categoryKeys c)

/-- The `'safe content'` key, the positive label the loop skips. -/
def safeContentKey : Str := "safe content".toList

/-- One step of the category loop: consider only number-typed values, skip the
`'safe content'` label, update on strict `score > maxScore`. -/
def scanF (fields : List (Str × JVal)) (acc : ℚ × Option Str) (c : Str) : ℚ × Option Str :=
  match catScoreVal fields c with
  | .num q =>
    if c ≠ safeContentKey then
      if q > acc.1 then (q, some c) else acc
    else acc
  | _ => acc

/-- The category loop of `parseModerationResponse`: fold over the catalog
accumulating `(maxScore, maxCategory)` from `(0, null)`. -/
def scanCategories (fields : List (Str × JVal)) : ℚ × Option Str :=
  toxicCategories.foldl (scanF fields) (0, none)

/-- The `safe`/`OK` key chain of the parser. -/
def safeKeys : List Str :=
  ["safe", "Safe", "OK", "ok", "non_toxic", "safe content", "Safe Content"].map String.toList

/-- The raw `okScore` value (`scores['safe'] || … || 0`). -/
def okScoreVal (fields : List (Str × JVal)) : JVal := chainLookup fields safeKeys

/-- JavaScript numeric coercion as the comparison `okScore > 0` performs it,
for the value shapes the upstream supplies (numbers and booleans; other shapes
are covered by the well-typedness hypothesis of the relevant theorems). -/
def toNum : JVal → ℚ
  | .num q => q
  | .bool true => 1
  | _ => 0

/-- Strict-equality flag read: `scores['is_flagged'] === true`. -/
def flagTrue (fields : List (Str × JVal)) (k : Str) : Bool :=
  match jget fields k with
  | some (.bool b) => b
  | _ => false

/-- Key-presence check: `'is_flagged' in scores || 'is_safer_flagged' in scores`. -/
def hasFlags (fields : List (Str × JVal)) : Bool :=
  (jget fields "is_flagged".toList).isSome || (jget fields "is_safer_flagged".toList).isSome

/-- The details record the parser attaches to an outcome (debug-only fields of
the source object are elided; no claim inspects them). -/
structure Details where
  maxScore : ℚ
  maxCategory : Option Str
  okScore : ℚ
deriving DecidableEq

/-- A moderation outcome: `{ isBlocked, reason, details }`. -/
structure Outcome where
  isBlocked : Bool
  reason : Str
  details : Option Details
deriving DecidableEq

/-- Decimal rendering of a rounded score, standing in for
`maxScore.toFixed(4)` inside a reason string (no theorem depends on its
digits, only on the `"Blocked due to "` prefix of the enclosing string). -/
def ratFixed4 (q : ℚ) : Str :=
  let n : ℤ := ⌊q * 10000 + 1 / 2⌋
  let s : Str := if n < 0 then ['-'] else []
  s ++ natDigits (n.natAbs / 10000) ++ ['.'] ++
    (let f := natDigits (n.natAbs % 10000)
     List.replicate (4 - f.length) '0' ++ f)

/-- Fallback category name: `maxCategory || 'toxicity'`. -/
def catOr (mc : Option Str) : Str := (mc.filter (· ≠ [])).getD "toxicity".toList

/-- The scores-map core of `parseModerationResponse` (lines 274–416): category
scan, built-in flag check, `okScore` chain, blocking decision and reason. -/
def scoresOutcome (threshold : ℚ) (fields : List (Str × JVal)) : Outcome :=
  let scan := scanCategories fields
  let maxScore := scan.1
  let maxCategory := scan.2
  let isFlagged := flagTrue fields "is_flagged".toList
  let isSaferFlagged := flagTrue fields "is_safer_flagged".toList
  let flags := hasFlags fields
  let okScore := toNum (okScoreVal fields)
  let isBlocked :=
    if flags then isFlagged || isSaferFlagged
    else decide (maxScore ≥ threshold) || (decide (okScore > 0) && decide (okScore < 1 - threshold))
  let reason : Str :=
    if isBlocked then
      if flags then
        if isFlagged && isSaferFlagged then "Blocked: Flagged by model and safer threshold".toList
        else if isFlagged then "Blocked: Flagged by model".toList
        else "Blocked: Exceeds safer threshold (".toList ++ catOr maxCategory ++ ")".toList
      else
        "Blocked due to ".toList ++ catOr maxCategory ++ " (score: ".toList ++
          ratFixed4 maxScore ++ ")".toList
    else "OK".toList
  { isBlocked := isBlocked
    reason := reason
    details := some { maxScore := maxScore, maxCategory := maxCategory, okScore := okScore } }

/-- Non-blocking outcome for an upstream/network failure (`API_ERROR`). -/
def apiErrorOutcome : Outcome :=
  { isBlocked := false, reason := "API_ERROR".toList, details := none }

/-- Non-blocking outcome for an unrecognized response shape. -/
def unexpectedOutcome : Outcome :=
  { isBlocked := false, reason := "UNEXPECTED_RESPONSE".toList, details := none }

/-- Non-blocking outcome when parsing the upstream payload throws. -/
def parseErrorOutcome : Outcome :=
  { isBlocked := false, reason := "PARSE_ERROR".toList, details := none }

/-- Non-blocking outcome for empty input (no upstream call is made). -/
def emptyOutcome : Outcome :=
  { isBlocked := false, reason := "Empty message".toList, details := none }

/-- Lower-casing `label.toLowerCase()` (ASCII suffices for the category labels). -/
def jsToLower (s : Str) : Str := s.map Char.toLower

/-- JavaScript object assignment `scores[k] = v`: overwrite an existing key or
append a new one. -/
def upsert (fields : List (Str × JVal)) (k : Str) (v : JVal) : List (Str × JVal) :=
  if fields.any (fun p => p.1 = k) then
    fields.map (fun p => if p.1 = k then (k, v) else p)
  else fields ++ [(k, v)]

/-- The `[[label, score], …]` conversion loop.  Destructuring `[label, score]`
from a non-iterable element (number, boolean, `null`, plain object) throws,
modelled as `Except.error`; string elements destructure to characters, fail the
`typeof score === 'number'` check and are skipped. -/
def pairsScores (xs : List JVal) : Except Unit (List (Str × JVal)) :=
  xs.foldl
    (fun acc el =>
      acc.bind fun fields =>
        match el with
        | .arr es =>
          match es.get? 0, es.get? 1 with
          | some (.str l), some (.num q) => .ok (upsert fields (jsToLower l) (.num q))
          | _, _ => .ok fields
        | .str _ => .ok fields
        | _ => .error ())
    (.ok [])

/-- Source `parseModerationResponse` (lines 245–416): dispatch on the response shape.
`Except.error` models a thrown `TypeError` (property access on `null`, the `in`
operator on a truthy primitive, destructuring a non-iterable), which the
callers' `try`/`catch` blocks absorb. -/
def parseModerationResponse (t : ℚ) (v : JVal) : Except Unit Outcome :=
  match v with
  | .arr [] => .ok (scoresOutcome t [])
  | .arr (x :: rest) =>
    match x with
    | .arr _ => (pairsScores (x :: rest)).map (scoresOutcome t)
    | _ =>
      if truthy x then
        match x with
        | .obj f => .ok (scoresOutcome t f)
        | _ => .error ()
      else .ok (scoresOutcome t [])
  | .obj f => .ok (scoresOutcome t f)
  | .null => .error ()
  | _ => .ok unexpectedOutcome

/-- Source `parseGradioClientResponse` (lines 161–237): unwrap
`{data: [plot, json]}` or a bare array, take the second element, JSON-parse it
when it is a string, then delegate to `parseModerationResponse`; every failure
path degrades to a non-blocking `UNEXPECTED_RESPONSE`/`PARSE_ERROR` outcome. -/
def parseGradioClientResponse (t : ℚ) (jparse : Str → Option JVal) (v : JVal) : Outcome :=
  let data? : Option (List JVal) :=
    match v with
    | .obj f =>
      match jget f "data".toList with
      | some (.arr xs) => some xs
      | _ => none
    | .arr xs => some xs
    | _ => none
  match data? with
  | none => unexpectedOutcome
  | some xs =>
    if xs.length < 2 then unexpectedOutcome
    else
      match xs.get? 1 with
      | none => unexpectedOutcome
      | some j =>
        if ¬ truthy j then unexpectedOutcome
        else
          let md? : Option JVal :=
            match j with
            | .str s => jparse s
            | other => some other
          match md? with
          | none => parseErrorOutcome
          | some md =>
            match parseModerationResponse t md with
            | .ok o => o
            | .error _ => parseErrorOutcome

/-- What the two upstream call styles of `moderateText` can deliver: a thrown
network/timeout error, a Gradio client result, or an Inference-API body. -/
inductive Upstream where
  | netError
  | space (v : JVal)
  | inference (v : JVal)

/-- Emptiness guard `!text || text.trim().length === 0` (the callers always pass strings). -/
def emptyText (s : Str) : Bool := s = ([] : Str) || jsTrim s = ([] : Str)

/-- Source `moderateText` (lines 69–154): empty input short-circuits; a thrown
upstream error is caught and degrades open to `API_ERROR`; otherwise the
response is parsed by the branch-appropriate parser. -/
def moderateText (t : ℚ) (jparse : Str → Option JVal) (text : Str) (u : Upstream) : Outcome :=
  if emptyText text then emptyOutcome
  else
    match u with
    | .netError => apiErrorOutcome
    | .space v => parseGradioClientResponse t jparse v
    | .inference v =>
      match parseModerationResponse t v with
      | .ok o => o
      | .error _ => apiErrorOutcome

/-- Clamp into the provider range: `Math.max(0.005, Math.min(0.1, x))`. -/
def clampSafer (x : ℚ) : ℚ := max 0.005 (min 0.1 x)

/-- The safer-parameter selection of `moderateText` (lines 88–103): an explicit
`SAFER_VALUE` override is clamped and takes precedence; otherwise the
threshold — replaced by `0.5` when falsy (`threshold || 0.5`) — is mapped
through `0.1 − threshold × 0.095` and clamped. -/
def saferParam (threshold : ℚ) (saferValue : Option ℚ) : ℚ :=
  match saferValue with
  | some v => clampSafer v
  | none =>
    let t := if threshold = 0 then 0.5 else threshold
    clampSafer (0.1 - t * 0.095)

/-! ## AI service (`aiService.js`)

The OpenAI round-trip (`callOpenAIAPI` + `parseOpenAIResponse`) is an oracle
`Except Unit Str`: `.ok content` is the successfully parsed message content,
`.error ()` any thrown provider/parse error.  Prompt construction
(`buildMessages`) only shapes the outgoing request and is not modelled. -/

/-- The constant `AI_AUTHOR_NAME`. -/
def aiAuthor : Str := "AI Moderator".toList

/-- Length post-processing of `generateAIResponse` (lines 56–62): responses
longer than the configured max are cut to `maxLen` characters, trimmed, and
suffixed with an ellipsis; shorter responses are returned trimmed. -/
def postProcess (maxLen : ℕ) (s : Str) : Str :=
  if s.length > maxLen then jsTrim (s.take maxLen) ++ "...".toList else jsTrim s

/-- The canned greeting `generateGreeting` falls back to when the provider
call (or response parsing) throws. -/
def greetFallback (username : Str) : Str :=
  "Hey ".toList ++ username ++ "! 👋 Welcome to the chat! What's up?".toList

/-- Source `generateGreeting` (lines 11–36): `null` when AI is disabled; the trimmed
provider content on success; the fallback greeting — not an exception — when
the provider errors. -/
def generateGreeting (enabled : Bool) (username : Str) (provider : Except Unit Str) :
    Option Str :=
  if enabled then
    some (match provider with
          | .ok r => jsTrim r
          | .error _ => greetFallback username)
  else none

/-- Source `generateAIResponse` (lines 46–67): throws when AI is disabled, re-throws
provider errors, and otherwise applies the length post-processing. -/
def generateAIResponse (enabled : Bool) (maxLen : ℕ) (provider : Except Unit Str) :
    Except Unit Str :=
  if enabled then provider.map (postProcess maxLen) else .error ()

/-! ## Connection session (`socketHandler.js`)

One connection's handlers, as a state machine over `Session`.  Network results
(moderation outcome, AI provider reply) arrive as oracle fields on the event;
`Date.now()` is the event's `now` field; `sanitize` abstracts the two regex
replacements of the message handler (no claim depends on their exact output).
The deferred (`setImmediate`) AI turn is run in-order after the primary
notice, matching the spec's ordering contract. -/

/-- The configuration fields the handlers read (`config.js`). -/
structure Config where
  aiEnabled : Bool
  maxRespLen : ℕ
  historySize : ℕ
  perMinute : ℕ

/-- One conversation-history entry (`{author, text, timestamp}`). -/
structure Entry where
  author : Str
  text : Str
  ts : ℕ
deriving DecidableEq

/-- A message as emitted to clients (fields the claims inspect). -/
structure Msg where
  id : Str
  text : Str
  author : Str
  isAI : Bool
deriving DecidableEq

/-- An observable effect of one handler run. -/
inductive Out where
  | errOut (m : Str)
  | blockedOut (id : Option Str) (text : Str) (reason : Str)
  | broadcastOut (m : Msg)
  | unicastOut (m : Msg)
deriving DecidableEq

/-- Source `checkRateLimit` / `checkAIRateLimit` (lines 184–207, 214–233): filter the
stored timestamps to the trailing 60 000 ms window; at or above the limit
reject without writing back; otherwise record `now` after the survivors. -/
def checkRateLimit (limit : ℕ) (now : ℤ) (msgs : List ℤ) : Bool × List ℤ :=
  let recent := msgs.filter (fun ts => ts > now - 60000)
  if recent.length ≥ limit then (false, msgs)
  else (true, recent ++ [now])

/-- Source `addToConversationHistory` (lines 240–257): push, then drop the oldest
entry when the length exceeds the configured history size. -/
def addToHistory (n : ℕ) (h : List Entry) (e : Entry) : List Entry :=
  let h2 := h ++ [e]
  if h2.length > n then h2.tail else h2

/-- Per-connection mutable state: registered name, the two rate windows, and
the conversation history. -/
structure Session where
  name : Option Str
  rl : List ℤ
  aiRl : List ℤ
  hist : List Entry

/-- State of a fresh connection. -/
def initSession : Session := { name := none, rl := [], aiRl := [], hist := [] }

/-- Oracles consumed by one deferred AI turn. -/
structure AiOracle where
  provider : Except Unit Str
  aiMod : Outcome

/-- Payload of a `message` event (`text = none` models a missing or
non-string `data.text`). -/
structure MsgIn where
  text : Option Str
  author : Option Str

/-- User/blocked message id: `` `${socket.id}-${Date.now()}` ``. -/
def mkId (sid : Str) (now : ℕ) : Str := sid ++ '-' :: natDigits now

/-- AI message id: `` `ai-${socketId}-${Date.now()}` ``. -/
def aiId (sid : Str) (now : ℕ) : Str := "ai-".toList ++ sid ++ '-' :: natDigits now

/-- Greeting id: `` `ai-greeting-${socket.id}-${Date.now()}` ``. -/
def greetId (sid : Str) (now : ℕ) : Str :=
  "ai-greeting-".toList ++ sid ++ '-' :: natDigits now

/-- Source `generateAndBroadcastAIResponse` (lines 267–337): gated by the AI enable
flag and the fixed 10/min AI rate limit; a provider error, an
empty-after-trim response, or a flagged AI response is silently dropped;
otherwise the AI message is appended to history and broadcast. -/
def aiStep (cfg : Config) (sid : Str) (now : ℕ) (orac : AiOracle) (s : Session) :
    Session × List Out :=
  if cfg.aiEnabled then
    match checkRateLimit 10 now s.aiRl with
    | (false, _) => (s, [])
    | (true, aiRl') =>
      let s1 := { s with aiRl := aiRl' }
      match generateAIResponse true cfg.maxRespLen orac.provider with
      | .error _ => (s1, [])
      | .ok txt =>
        if (jsTrim txt).length = 0 then (s1, [])
        else if orac.aiMod.isBlocked then (s1, [])
        else
          ({ s1 with hist := addToHistory cfg.historySize s1.hist
                       { author := aiAuthor, text := txt, ts := now } },
           [Out.broadcastOut { id := aiId sid now, text := txt, author := aiAuthor, isAI := true }])
  else (s, [])

/-- The `register_username` handler (lines 351–394): reject a missing/falsy or
non-string name, trim, reject length 0 or > 20, otherwise set the session
name; then (AI enabled) generate a greeting, moderate it, and on a pass append
it to history and unicast it to the registering connection. -/
def registerStep (cfg : Config) (sid : Str) (now : ℕ) (data : Option Str)
    (provider : Except Unit Str) (greetMod : Outcome) (s : Session) : Session × List Out :=
  match data with
  | none => (s, [Out.errOut "Username is required".toList])
  | some raw =>
    if raw = ([] : Str) then (s, [Out.errOut "Username is required".toList])
    else
      let u := jsTrim raw
      if u.length = 0 ∨ u.length > 20 then
        (s, [Out.errOut "Username must be between 1 and 20 characters".toList])
      else
        let s1 := { s with name := some u }
        if cfg.aiEnabled then
          match generateGreeting true u provider with
          | none => (s1, [])
          | some g =>
            if g ≠ ([] : Str) ∧ greetMod.isBlocked = false then
              ({ s1 with hist := addToHistory cfg.historySize s1.hist
                           { author := aiAuthor, text := g, ts := now } },
               [Out.unicastOut { id := greetId sid now, text := g, author := aiAuthor, isAI := true }])
            else (s1, [])
        else (s1, [])

/-- The `message` handler (lines 397–497): username gate, input validation,
trim + sanitize, empty/oversize rejection, user rate limit, moderation, then
either a block notice plus deferred explanatory AI turn, or history append,
broadcast and deferred normal AI turn. -/
def messageStep (cfg : Config) (san : Str → Str) (sid : Str) (now : ℕ)
    (data : Option MsgIn) (mod : Outcome) (orac : AiOracle) (s : Session) :
    Session × List Out :=
  match s.name with
  | none => (s, [Out.errOut "Please set your username first".toList])
  | some u =>
    match data with
    | none => (s, [Out.errOut "Invalid message format".toList])
    | some d =>
      match d.text with
      | none => (s, [Out.errOut "Invalid message format".toList])
      | some rawText =>
        let mt := san (jsTrim rawText)
        if mt.length = 0 then (s, [Out.errOut "Message cannot be empty".toList])
        else if mt.length > 1000 then
          (s, [Out.errOut "Message too long (max 1000 characters)".toList])
        else
          match checkRateLimit cfg.perMinute now s.rl with
          | (false, _) =>
            (s, [Out.blockedOut none mt "Rate limit exceeded. Please slow down.".toList])
          | (true, rl') =>
            let s1 := { s with rl := rl' }
            if mod.isBlocked then
              let r := aiStep cfg sid now orac s1
              (r.1, Out.blockedOut (some (mkId sid now)) mt mod.reason :: r.2)
            else
              let msg : Msg := { id := mkId sid now, text := mt, author := u, isAI := false }
              let s2 := { s1 with hist := addToHistory cfg.historySize s1.hist
                                    { author := u, text := mt, ts := now } }
              let r := aiStep cfg sid now orac s2
              (r.1, Out.broadcastOut msg :: r.2)

/-- A connection-lifetime event, carrying its upstream oracles. -/
inductive Ev where
  | reg (now : ℕ) (data : Option Str) (provider : Except Unit Str) (greetMod : Outcome)
  | msg (now : ℕ) (data : Option MsgIn) (mod : Outcome) (orac : AiOracle)
  | disc

/-- Dispatch one event (`disconnect` purges all per-connection state and
clears the registered name). -/
def step (cfg : Config) (san : Str → Str) (sid : Str) (s : Session) : Ev → Session × List Out
  | .reg now data provider gm => registerStep cfg sid now data provider gm s
  | .msg now data mod orac => messageStep cfg san sid now data mod orac s
  | .disc => (initSession, [])

/-- Run a trace of events from a state, returning the final state. -/
def runFrom (cfg : Config) (san : Str → Str) (sid : Str) : Session → List Ev → Session
  | s, [] => s
  | s, ev :: tr => runFrom cfg san sid (step cfg san sid s ev).1 tr

/-- Run a trace of events from a state, collecting all emitted outputs. -/
def runOuts (cfg : Config) (san : Str → Str) (sid : Str) : Session → List Ev → List Out
  | _, [] => []
  | s, ev :: tr =>
    (step cfg san sid s ev).2 ++ runOuts cfg san sid (step cfg san sid s ev).1 tr

/-! ## Claim theorems -/

/-- Claim C9, counterexample: the claim asserts that for every configured
threshold `t ∈ [0,1]` with no override the safety parameter equals
`0.1 − t·0.095` clamped.  At `t = 0` the source evaluates
`config.moderation.threshold || 0.5`, so the falsy threshold `0` is replaced by
`0.5`: the code produces `0.0525` while the claimed formula gives `0.1`. -/
theorem claim_C9_cex :
    saferParam 0 none = 21 / 400 ∧ clampSafer (0.1 - 0 * 0.095) = 1 / 10 ∧
      (21 / 400 : ℚ) ≠ 1 / 10 := by
  refine ⟨?_, ?_, by norm_num⟩ <;> · simp only [saferParam, clampSafer]; norm_num

/-- Claim C9, amended: with no override the safety parameter equals
`0.1 − t·0.095` clamped to `[0.005, 0.1]` for every threshold `t ≠ 0` (in
particular throughout `(0,1]`); the falsy threshold `t = 0` is replaced by the
default `0.5` before the derivation; an explicit override is clamped to
`[0.005, 0.1]` and bypasses the derivation entirely. -/
theorem claim_C9 (t : ℚ) (x : ℚ) :
    (t ≠ 0 → saferParam t none = clampSafer (0.1 - t * 0.095))
    ∧ saferParam t (some x) = clampSafer x
    ∧ saferParam 0 none = clampSafer (0.1 - 0.5 * 0.095) := by
  refine ⟨fun ht => ?_, rfl, ?_⟩
  · simp [saferParam, ht]
  · simp [saferParam]

theorem claim_C9_witness :
    saferParam (1/2) none = clampSafer (0.1 - (1/2) * 0.095) :=
  (claim_C9 (1/2) 0).1 (by norm_num)

/-- Claim C3: a rate-limit check at time `now` succeeds and records `now`
exactly when strictly fewer than `limit` stored timestamps lie in the trailing
60 000 ms window; at the limit it rejects without recording; a reject never
mutates the stored list; and capacity recovers once entries age past the
window (in particular once the oldest of a full window has aged out). -/
theorem claim_C3 (limit : ℕ) (now : ℤ) (msgs : List ℤ) :
    ((checkRateLimit limit now msgs).1 = true ↔
      (msgs.filter (fun ts => ts > now - 60000)).length < limit)
    ∧ ((checkRateLimit limit now msgs).1 = true →
      (checkRateLimit limit now msgs).2 =
        msgs.filter (fun ts => ts > now - 60000) ++ [now])
    ∧ ((checkRateLimit limit now msgs).1 = false → (checkRateLimit limit now msgs).2 = msgs)
    ∧ ((msgs.filter (fun ts => ts > now - 60000)).length = limit →
      (checkRateLimit limit now msgs).1 = false ∧ (checkRateLimit limit now msgs).2 = msgs)
    ∧ ((∀ ts ∈ msgs, ts ≤ now - 60000) → 0 < limit → (checkRateLimit limit now msgs).1 = true)
    ∧ (msgs.length = limit → (∃ ts ∈ msgs, ts ≤ now - 60000) →
      (checkRateLimit limit now msgs).1 = true) := by
  have hmain : checkRateLimit limit now msgs =
      if (msgs.filter (fun ts => ts > now - 60000)).length ≥ limit then (false, msgs)
      else (true, msgs.filter (fun ts => ts > now - 60000) ++ [now]) := rfl
  by_cases h : (msgs.filter (fun ts => ts > now - 60000)).length ≥ limit
  · rw [hmain, if_pos h]
    refine ⟨⟨fun hh => by simp at hh, fun hlt => absurd hlt (by omega)⟩,
      fun hh => by simp at hh, fun _ => rfl, fun _ => ⟨rfl, rfl⟩, ?_, ?_⟩
    · intro hall hpos
      exfalso
      have hnil : msgs.filter (fun ts => ts > now - 60000) = [] :=
        List.filter_eq_nil_iff.mpr (fun ts hts => by simpa using hall ts hts)
      rw [hnil] at h
      simp at h
      omega
    · rintro hlen ⟨ts, hts, hold⟩
      exfalso
      have hle := List.length_filter_le (fun ts => decide (ts > now - 60000)) msgs
      have hne : msgs.filter (fun ts => ts > now - 60000) ≠ msgs := by
        intro he
        have hmem : ts ∈ msgs.filter (fun ts => ts > now - 60000) := by
          rw [he]; exact hts
        have hpred := (List.mem_filter.mp hmem).2
        simp at hpred
        omega
      have hnel : (msgs.filter (fun ts => ts > now - 60000)).length ≠ msgs.length :=
        fun hEq => hne ((List.filter_sublist msgs).eq_of_length hEq)
      omega
  · rw [hmain, if_neg h]
    push_neg at h
    exact ⟨⟨fun _ => h, fun _ => rfl⟩, fun _ => rfl, fun hh => by simp at hh,
      fun hEq => absurd hEq (by omega), fun _ _ => rfl, fun _ _ => rfl⟩

theorem claim_C3_witness : (checkRateLimit 1 0 []).1 = true :=
  (claim_C3 1 0 []).1.mpr (by decide)

/-- Length bound for one `addToConversationHistory` append. -/
theorem addToHistory_length_le (n : ℕ) (h : List Entry) (e : Entry) (hh : h.length ≤ n) :
    (addToHistory n h e).length ≤ n := by
  unfold addToHistory
  dsimp only
  split <;> simp_all

/-- Folding appends over an empty history keeps exactly the trailing `N`
entries, oldest first. -/
theorem foldl_addToHistory (N : ℕ) (es : List Entry) :
    List.foldl (addToHistory N) [] es = es.drop (es.length - N) := by
  induction es using List.reverseRecOn with
  | nil => simp
  | append_singleton l e ih =>
    rw [List.foldl_append, List.foldl_cons, List.foldl_nil, ih]
    unfold addToHistory
    by_cases hk : l.length < N
    · have h0 : l.length - N = 0 := by omega
      rw [h0, List.drop_zero]
      have : ¬ (l ++ [e]).length > N := by simp; omega
      simp only [if_neg this]
      have h1 : (l ++ [e]).length - N = 0 := by simp; omega
      rw [h1, List.drop_zero]
    · push_neg at hk
      have hlen : (l.drop (l.length - N)).length = N := by
        rw [List.length_drop]; omega
      have hgt : (l.drop (l.length - N) ++ [e]).length > N := by simp [hlen]
      simp only [if_pos hgt]
      rcases Nat.eq_zero_or_pos N with hN | hN
      · subst hN
        simp only [Nat.sub_zero] at *
        rw [List.drop_length]
        simp only [List.nil_append, List.tail_cons]
        rw [List.drop_eq_nil_of_le (by simp)]
      · have hne : l.drop (l.length - N) ≠ [] := by
          intro hnil
          rw [hnil] at hlen
          simp at hlen
          omega
        rw [List.tail_append_of_ne_nil hne, List.tail_drop]
        have harith : (l ++ [e]).length - N = l.length - N + 1 := by simp; omega
        rw [harith, List.drop_append_of_le_length (by omega)]

/-- Claim C7: a connection's conversation history never grows beyond the
configured size `N` (one append from a state within the bound stays within the
bound), and appending `N + 1` entries to a fresh history evicts exactly the
oldest entry, leaving the last `N` in their original oldest-first order. -/
theorem claim_C7 (N : ℕ) (h : List Entry) (e : Entry) (es : List Entry) :
    (h.length ≤ N → (addToHistory N h e).length ≤ N)
    ∧ (es.length = N + 1 → List.foldl (addToHistory N) [] es = es.drop 1) := by
  refine ⟨addToHistory_length_le N h e, fun hlen => ?_⟩
  rw [foldl_addToHistory, hlen]
  simp

/-- Trimming never lengthens a string. -/
theorem jsTrim_length_le (s : Str) : (jsTrim s).length ≤ s.length := by
  unfold jsTrim
  rw [List.length_reverse]
  calc ((s.dropWhile jsWS).reverse.dropWhile jsWS).length
      ≤ (s.dropWhile jsWS).reverse.length := (List.dropWhile_sublist _).length_le
    _ = (s.dropWhile jsWS).length := List.length_reverse _
    _ ≤ s.length := (List.dropWhile_sublist _).length_le

/-- Claim C8, counterexample: the claim asserts that a whitespace-only provider
response is never broadcast.  A whitespace-only response *longer* than the
configured max (here 3 spaces against a max of 2) is truncated to the bare
ellipsis marker `"..."`, passes the emptiness check, and is broadcast. -/
theorem claim_C8_cex :
    jsTrim "   ".toList = [] ∧
      (aiStep ⟨true, 2, 5, 30⟩ "s".toList 9
          ⟨.ok "   ".toList, ⟨false, "OK".toList, none⟩⟩ initSession).2 =
        [Out.broadcastOut ⟨"ai-s-9".toList, "...".toList, aiAuthor, true⟩] := by
  decide

/-- Claim C8, amended: a provider response longer than the configured max is
delivered as its first `maxRespLen` characters, trimmed, plus a trailing
ellipsis marker (so at most `maxRespLen` content characters survive); an
empty or whitespace-only response *not longer than the max* is treated as
nothing-to-send — the deferred AI turn emits nothing and leaves the history
untouched.  (A whitespace-only response longer than the max instead becomes
the bare ellipsis marker, see the counterexample.) -/
theorem claim_C8 (cfg : Config) (sid : Str) (now : ℕ) (orac : AiOracle) (s : Session) (r : Str) :
    (r.length > cfg.maxRespLen →
      postProcess cfg.maxRespLen r = jsTrim (r.take cfg.maxRespLen) ++ "...".toList ∧
        (jsTrim (r.take cfg.maxRespLen)).length ≤ cfg.maxRespLen)
    ∧ (orac.provider = .ok r → jsTrim r = [] → r.length ≤ cfg.maxRespLen →
      (aiStep cfg sid now orac s).2 = [] ∧ (aiStep cfg sid now orac s).1.hist = s.hist) := by
  constructor
  · intro hlong
    unfold postProcess
    rw [if_pos hlong]
    refine ⟨rfl, le_trans (jsTrim_length_le _) ?_⟩
    rw [List.length_take]
    omega
  · intro hok htrim hshort
    have hpost : postProcess cfg.maxRespLen r = [] := by
      unfold postProcess
      rw [if_neg (by omega), htrim]
    unfold aiStep
    by_cases hai : cfg.aiEnabled
    · rw [if_pos hai]
      rcases hrl : checkRateLimit 10 (now : ℤ) s.aiRl with ⟨ok, l⟩
      cases ok
      · exact ⟨rfl, rfl⟩
      · have hgen : generateAIResponse true cfg.maxRespLen orac.provider = .ok [] := by
          rw [hok]
          simp [generateAIResponse, Except.map, hpost]
        rw [hgen]
        simp [jsTrim]
    · rw [if_neg hai]
      exact ⟨rfl, rfl⟩

theorem claim_C8_witness :
    postProcess 2 "abc".toList = jsTrim ("abc".toList.take 2) ++ "...".toList ∧
      (jsTrim ("abc".toList.take 2)).length ≤ 2 :=
  (claim_C8 ⟨true, 2, 5, 30⟩ [] 0 ⟨.error (), ⟨false, [], none⟩⟩ initSession
    "abc".toList).1 (by decide)

/-- The canned fallback greeting is never the empty string. -/
theorem greetFallback_ne_nil (u : Str) : greetFallback u ≠ [] := by
  simp [greetFallback]

/-- Claim C5, counterexample: the claim asserts that when greeting generation
hits a provider error no greeting is delivered.  In the source,
`generateGreeting` catches the provider error and returns a canned fallback
greeting, which the registration handler then moderates and unicasts: for the
user `"Bo"` with a failing provider, the fallback greeting **is** delivered. -/
theorem claim_C5_cex :
    (registerStep ⟨true, 200, 5, 30⟩ "s".toList 7 (some "Bo".toList) (.error ())
        ⟨false, "OK".toList, none⟩ initSession).2 =
      [Out.unicastOut ⟨"ai-greeting-s-7".toList, greetFallback "Bo".toList, aiAuthor, true⟩] := by
  decide

/-- Claim C5, amended: a provider error during greeting generation does not
raise to the registration handler: `generateGreeting` swallows it and returns
the canned fallback greeting, and for a valid registration the handler
delivers that fallback to the registering connection whenever the fallback
passes moderation; no greeting is delivered only when moderation blocks it. -/
theorem claim_C5 (cfg : Config) (sid : Str) (now : ℕ) (raw : Str) (gm : Outcome) (s : Session)
    (hai : cfg.aiEnabled = true) (hraw : raw ≠ []) (hlen1 : (jsTrim raw).length ≠ 0)
    (hlen2 : (jsTrim raw).length ≤ 20) :
    generateGreeting true (jsTrim raw) (.error ()) = some (greetFallback (jsTrim raw))
    ∧ (gm.isBlocked = false →
        (registerStep cfg sid now (some raw) (.error ()) gm s).2 =
          [Out.unicastOut ⟨greetId sid now, greetFallback (jsTrim raw), aiAuthor, true⟩])
    ∧ (gm.isBlocked = true →
        (registerStep cfg sid now (some raw) (.error ()) gm s).2 = []) := by
  have hne : jsTrim raw ≠ [] := fun hnil => hlen1 (by simp [hnil])
  have hle : ¬(20 < (jsTrim raw).length) := by omega
  refine ⟨by simp [generateGreeting], fun hgm => ?_, fun hgm => ?_⟩
  · simp [registerStep, hraw, hne, hle, hai, generateGreeting, hgm, greetFallback_ne_nil]
  · simp [registerStep, hraw, hne, hle, hai, generateGreeting, hgm]

theorem claim_C5_witness :
    generateGreeting true (jsTrim "Bo".toList) (.error ()) =
      some (greetFallback (jsTrim "Bo".toList)) :=
  (claim_C5 ⟨true, 200, 5, 30⟩ "s".toList 7 "Bo".toList ⟨false, "OK".toList, none⟩
    initSession rfl (by decide) (by decide) (by decide)).1

/-- Splitting at a separator absent from both suffixes is unambiguous
(cons-side version, by induction on the prefixes). -/
theorem dash_split_pre (x1 : Str) : ∀ (x2 r1 r2 : Str), '-' ∉ x1 → '-' ∉ x2 →
    x1 ++ '-' :: r1 = x2 ++ '-' :: r2 → x1 = x2 ∧ r1 = r2 := by
  induction x1 with
  | nil =>
    intro x2 r1 r2 _ h2 heq
    cases x2 with
    | nil => simpa using heq
    | cons c x2' =>
      exfalso
      simp only [List.nil_append, List.cons_append, List.cons.injEq] at heq
      exact h2 (heq.1 ▸ List.mem_cons_self c x2')
  | cons c x1' ih =>
    intro x2 r1 r2 h1 h2 heq
    cases x2 with
    | nil =>
      exfalso
      simp only [List.cons_append, List.nil_append, List.cons.injEq] at heq
      exact h1 (heq.1 ▸ List.mem_cons_self c x1')
    | cons c2 x2' =>
      simp only [List.cons_append, List.cons.injEq] at heq
      obtain ⟨hc, htl⟩ := heq
      have := ih x2' r1 r2 (fun hm => h1 (List.mem_cons_of_mem _ hm))
        (fun hm => h2 (List.mem_cons_of_mem _ hm)) htl
      exact ⟨by rw [hc, this.1], this.2⟩

/-- Splitting at the *last* separator: if the suffixes are separator-free, the
decomposition `a ++ "-" ++ d` is unique. -/
theorem dash_split (a b d1 d2 : Str) (h1 : '-' ∉ d1) (h2 : '-' ∉ d2)
    (heq : a ++ '-' :: d1 = b ++ '-' :: d2) : a = b ∧ d1 = d2 := by
  have hrev : d1.reverse ++ '-' :: a.reverse = d2.reverse ++ '-' :: b.reverse := by
    have := congrArg List.reverse heq
    simpa [List.reverse_append] using this
  have := dash_split_pre d1.reverse d2.reverse a.reverse b.reverse
    (by simpa using h1) (by simpa using h2) hrev
  exact ⟨List.reverse_injective (this.2), List.reverse_injective (this.1)⟩

/-- Claim C6, counterexample: the claim asserts ids are unique per send.  The
id is `` `${socket.id}-${Date.now()}` ``, so two distinct sends (here with
different texts `"aa"`, `"bb"`) from one connection in the same millisecond
are broadcast with the *same* id. -/
theorem claim_C6_cex :
    runOuts ⟨false, 200, 5, 30⟩ id "s".toList initSession
        [.reg 1 (some "u".toList) (.error ()) ⟨false, "OK".toList, none⟩,
         .msg 5 (some ⟨some "aa".toList, none⟩) ⟨false, "OK".toList, none⟩
           ⟨.error (), ⟨false, "OK".toList, none⟩⟩,
         .msg 5 (some ⟨some "bb".toList, none⟩) ⟨false, "OK".toList, none⟩
           ⟨.error (), ⟨false, "OK".toList, none⟩⟩] =
      [Out.broadcastOut ⟨mkId "s".toList 5, "aa".toList, "u".toList, false⟩,
       Out.broadcastOut ⟨mkId "s".toList 5, "bb".toList, "u".toList, false⟩] ∧
      "aa".toList ≠ "bb".toList := by
  decide

/-- Claim C6, amended: message ids are unique across sends with distinct
(connection id, millisecond timestamp) pairs: `mkId` is injective, because the
decimal timestamp suffix contains no dash.  (Two sends from the same
connection in the same millisecond receive the same id — see the
counterexample.) -/
theorem claim_C6 (s1 s2 : Str) (n1 n2 : ℕ) (h : s1 ≠ s2 ∨ n1 ≠ n2) :
    mkId s1 n1 ≠ mkId s2 n2 := by
  intro heq
  have := dash_split s1 s2 (natDigits n1) (natDigits n2)
    (natDigits_no_dash n1) (natDigits_no_dash n2) heq
  rcases h with h | h
  · exact h this.1
  · exact h (natDigits_injective this.2)

theorem claim_C6_witness : mkId "a".toList 1 ≠ mkId "a".toList 2 :=
  claim_C6 "a".toList "a".toList 1 2 (Or.inr (by decide))

/-- Claim-side reading of "recognized category score": the number-typed value
the key chain yields for a category (`none` when the chain yields a
non-number). -/
def numScore (fields : List (Str × JVal)) (c : Str) : Option ℚ :=
  match catScoreVal fields c with
  | .num q => some q
  | _ => none

/-- The recognized category scores, in catalog order. -/
def recognizedScores (fields : List (Str × JVal)) : List ℚ :=
  toxicCategories.filterMap (numScore fields)

/-- Claim-side "maximum recognized category score" (floored at the loop's
starting accumulator `0`). -/
def maxRecognizedScore (fields : List (Str × JVal)) : ℚ :=
  (recognizedScores fields).foldl max 0

/-- The `(maxScore, _)` accumulator of the source's category loop computes the
running maximum of the recognized scores, for any catalog avoiding the
`'safe content'` label. -/
theorem scan_fst_eq (fields : List (Str × JVal)) :
    ∀ (cats : List Str) (m : ℚ) (mc : Option Str), (∀ c ∈ cats, c ≠ safeContentKey) →
      (List.foldl (scanF fields) (m, mc) cats).1 =
        List.foldl max m (cats.filterMap (numScore fields)) := by
  intro cats
  induction cats with
  | nil => intro m mc _; rfl
  | cons c cs ih =>
    intro m mc hc
    have hcs : ∀ x ∈ cs, x ≠ safeContentKey := fun x hx => hc x (List.mem_cons_of_mem _ hx)
    have hchead : c ≠ safeContentKey := hc c (List.mem_cons_self _ _)
    rw [List.foldl_cons, List.filterMap_cons]
    cases hcat : catScoreVal fields c with
    | num q =>
      have hstep : scanF fields (m, mc) c = if q > m then (q, some c) else (m, mc) := by
        simp [scanF, hcat, hchead]
      have hnum : numScore fields c = some q := by simp [numScore, hcat]
      rw [hstep, hnum, List.foldl_cons]
      rcases le_or_lt q m with hq | hq
      · rw [if_neg (not_lt.mpr hq), ih m mc hcs, max_eq_left hq]
      · rw [if_pos hq, ih q (some c) hcs, max_eq_right hq.le]
    | str s =>
      have hstep : scanF fields (m, mc) c = (m, mc) := by simp [scanF, hcat]
      have hnum : numScore fields c = none := by simp [numScore, hcat]
      rw [hstep, hnum, ih m mc hcs]
    | bool b =>
      have hstep : scanF fields (m, mc) c = (m, mc) := by simp [scanF, hcat]
      have hnum : numScore fields c = none := by simp [numScore, hcat]
      rw [hstep, hnum, ih m mc hcs]
    | null =>
      have hstep : scanF fields (m, mc) c = (m, mc) := by simp [scanF, hcat]
      have hnum : numScore fields c = none := by simp [numScore, hcat]
      rw [hstep, hnum, ih m mc hcs]
    | arr xs =>
      have hstep : scanF fields (m, mc) c = (m, mc) := by simp [scanF, hcat]
      have hnum : numScore fields c = none := by simp [numScore, hcat]
      rw [hstep, hnum, ih m mc hcs]
    | obj f =>
      have hstep : scanF fields (m, mc) c = (m, mc) := by simp [scanF, hcat]
      have hnum : numScore fields c = none := by simp [numScore, hcat]
      rw [hstep, hnum, ih m mc hcs]

/-- No catalog entry is the skipped `'safe content'` label. -/
theorem toxicCategories_ne_safe : ∀ c ∈ toxicCategories, c ≠ safeContentKey := by
  decide

/-- The source loop's `maxScore` equals the claim-side maximum recognized
score. -/
theorem scanCategories_fst (fields : List (Str × JVal)) :
    (scanCategories fields).1 = maxRecognizedScore fields :=
  scan_fst_eq fields toxicCategories 0 none toxicCategories_ne_safe

/-- Claim C1: for a response object: with an `is_flagged`/`is_safer_flagged`
key present, the outcome blocks exactly when one of the flags is strictly the
boolean `true`; with no flag key present, it blocks exactly when the maximum
recognized category score reaches the threshold, or the `safe`/`OK` chain
yields a value that is positive and below `1 − threshold`. -/
theorem claim_C1 (t : ℚ) (fields : List (Str × JVal)) :
    parseModerationResponse t (.obj fields) = .ok (scoresOutcome t fields)
    ∧ (hasFlags fields = true →
        (scoresOutcome t fields).isBlocked =
          (flagTrue fields "is_flagged".toList || flagTrue fields "is_safer_flagged".toList))
    ∧ (hasFlags fields = false →
        ((scoresOutcome t fields).isBlocked = true ↔
          (maxRecognizedScore fields ≥ t ∨
            (toNum (okScoreVal fields) > 0 ∧ toNum (okScoreVal fields) < 1 - t)))) := by
  refine ⟨rfl, fun hf => ?_, fun hf => ?_⟩
  · simp only [scoresOutcome, hf, if_true]
  · simp [scoresOutcome, hf, scanCategories_fst]

theorem claim_C1_witness :
    (scoresOutcome (1/2) [("is_flagged".toList, .bool true)]).isBlocked =
      (flagTrue [("is_flagged".toList, .bool true)] "is_flagged".toList ||
        flagTrue [("is_flagged".toList, .bool true)] "is_safer_flagged".toList) :=
  (claim_C1 (1/2) [("is_flagged".toList, .bool true)]).2.1 (by decide)

/-- Appending cannot change a known head character. -/
theorem head?_append_B {s : Str} {r : Str} (h : s.head? = some 'B') :
    (s ++ r).head? = some 'B' := by
  cases s with
  | nil => cases h
  | cons a l => simpa using h

/-- Every blocked outcome the scores parser produces has a reason starting
with `'B'` ("Blocked…"), hence never one of the degradation tags. -/
theorem scoresOutcome_blocked_head (t : ℚ) (fields : List (Str × JVal))
    (hb : (scoresOutcome t fields).isBlocked = true) :
    (scoresOutcome t fields).reason.head? = some 'B' := by
  unfold scoresOutcome at hb ⊢
  dsimp only at hb ⊢
  rw [hb]
  simp only [if_true]
  split
  · split
    · decide
    · split
      · decide
      · repeat apply head?_append_B
        decide
  · repeat apply head?_append_B
    decide

/-- Lift of `scoresOutcome_blocked_head` through the response-shape
dispatcher. -/
theorem parseMR_blocked_head (t : ℚ) (v : JVal) (o : Outcome)
    (h : parseModerationResponse t v = .ok o) (hb : o.isBlocked = true) :
    o.reason.head? = some 'B' := by
  cases v with
  | num q =>
    simp only [parseModerationResponse, Except.ok.injEq] at h
    rw [← h] at hb
    exact absurd hb (by decide)
  | str s =>
    simp only [parseModerationResponse, Except.ok.injEq] at h
    rw [← h] at hb
    exact absurd hb (by decide)
  | bool b =>
    simp only [parseModerationResponse, Except.ok.injEq] at h
    rw [← h] at hb
    exact absurd hb (by decide)
  | null =>
    simp only [parseModerationResponse] at h
    exact Except.noConfusion h
  | obj fields =>
    simp only [parseModerationResponse, Except.ok.injEq] at h
    rw [← h] at hb ⊢
    exact scoresOutcome_blocked_head t fields hb
  | arr xs =>
    cases xs with
    | nil =>
      simp only [parseModerationResponse, Except.ok.injEq] at h
      rw [← h] at hb ⊢
      exact scoresOutcome_blocked_head t [] hb
    | cons x rest =>
      cases x with
      | arr es =>
        simp only [parseModerationResponse] at h
        rcases hps : pairsScores (JVal.arr es :: rest) with e | f
        · rw [hps] at h
          simp [Except.map] at h
        · rw [hps] at h
          simp only [Except.map, Except.ok.injEq] at h
          rw [← h] at hb ⊢
          exact scoresOutcome_blocked_head t f hb
      | num q =>
        simp only [parseModerationResponse] at h
        by_cases ht : truthy (JVal.num q) = true
        · rw [if_pos ht] at h
          simp at h
        · rw [if_neg ht] at h
          simp only [Except.ok.injEq] at h
          rw [← h] at hb ⊢
          exact scoresOutcome_blocked_head t [] hb
      | str s =>
        simp only [parseModerationResponse] at h
        by_cases ht : truthy (JVal.str s) = true
        · rw [if_pos ht] at h
          simp at h
        · rw [if_neg ht] at h
          simp only [Except.ok.injEq] at h
          rw [← h] at hb ⊢
          exact scoresOutcome_blocked_head t [] hb
      | bool b =>
        simp only [parseModerationResponse] at h
        by_cases ht : truthy (JVal.bool b) = true
        · rw [if_pos ht] at h
          simp at h
        · rw [if_neg ht] at h
          simp only [Except.ok.injEq] at h
          rw [← h] at hb ⊢
          exact scoresOutcome_blocked_head t [] hb
      | null =>
        simp only [parseModerationResponse] at h
        rw [if_neg (by simp [truthy])] at h
        simp only [Except.ok.injEq] at h
        rw [← h] at hb ⊢
        exact scoresOutcome_blocked_head t [] hb
      | obj f =>
        simp only [parseModerationResponse] at h
        rw [if_pos (show truthy (JVal.obj f) = true from rfl)] at h
        simp only [Except.ok.injEq] at h
        rw [← h] at hb ⊢
        exact scoresOutcome_blocked_head t f hb

/-- Every result of the Gradio-response parser is a degradation outcome or a
successfully parsed moderation outcome. -/
theorem gradio_cases (t : ℚ) (jparse : Str → Option JVal) (v : JVal) :
    parseGradioClientResponse t jparse v = unexpectedOutcome ∨
    parseGradioClientResponse t jparse v = parseErrorOutcome ∨
    ∃ md, parseModerationResponse t md = .ok (parseGradioClientResponse t jparse v) := by
  unfold parseGradioClientResponse
  dsimp only
  split
  · exact Or.inl rfl
  · split
    · exact Or.inl rfl
    · split
      · exact Or.inl rfl
      · next j hj =>
        split
        · exact Or.inl rfl
        · split
          · exact Or.inr (Or.inl rfl)
          · next md hmd =>
            split
            · next o ho => exact Or.inr (Or.inr ⟨md, by rw [ho]⟩)
            · exact Or.inr (Or.inl rfl)

/-- Lift of the head-character property to `moderateText` over every input and
upstream behaviour. -/
theorem moderate_blocked_head (t : ℚ) (jparse : Str → Option JVal) (text : Str) (u : Upstream)
    (hb : (moderateText t jparse text u).isBlocked = true) :
    (moderateText t jparse text u).reason.head? = some 'B' := by
  by_cases he : emptyText text = true
  · unfold moderateText at hb
    rw [if_pos he] at hb
    exact absurd hb (by decide)
  · cases u with
    | netError =>
      unfold moderateText at hb
      rw [if_neg he] at hb
      dsimp only at hb
      exact absurd hb (by decide)
    | space v =>
      unfold moderateText at hb ⊢
      rw [if_neg he] at hb ⊢
      dsimp only at hb ⊢
      rcases gradio_cases t jparse v with h | h | ⟨md, hmd⟩
      · rw [h] at hb
        exact absurd hb (by decide)
      · rw [h] at hb
        exact absurd hb (by decide)
      · exact parseMR_blocked_head t md _ hmd hb
    | inference v =>
      unfold moderateText at hb ⊢
      rw [if_neg he] at hb ⊢
      dsimp only at hb ⊢
      rcases hmr : parseModerationResponse t v with e | o
      · rw [hmr] at hb
        dsimp only at hb
        exact absurd hb (by decide)
      · rw [hmr] at hb
        dsimp only at hb ⊢
        exact parseMR_blocked_head t v o hmr hb

/-- Claim C2: the function `moderateText` is total over every upstream behaviour (it is a
Lean function, so it never raises), and it degrades open: a thrown upstream
error yields the non-blocking `API_ERROR` outcome; any outcome tagged
`API_ERROR`, `PARSE_ERROR` or `UNEXPECTED_RESPONSE` is non-blocking; an
unparseable Gradio shape yields `UNEXPECTED_RESPONSE` and a JSON string that
fails to parse yields `PARSE_ERROR`, both non-blocking; and a registered,
validated, within-rate-limit message whose moderation degraded to `API_ERROR`
is still broadcast to all clients. -/
theorem claim_C2 (t : ℚ) (jparse : Str → Option JVal) (text : Str) (u : Upstream) :
    (emptyText text = false → moderateText t jparse text .netError = apiErrorOutcome)
    ∧ (((moderateText t jparse text u).reason = "API_ERROR".toList ∨
        (moderateText t jparse text u).reason = "PARSE_ERROR".toList ∨
        (moderateText t jparse text u).reason = "UNEXPECTED_RESPONSE".toList) →
      (moderateText t jparse text u).isBlocked = false)
    ∧ (∀ q : ℚ, emptyText text = false →
        moderateText t jparse text (.space (.num q)) = unexpectedOutcome)
    ∧ (∀ ss : Str, ss ≠ [] → jparse ss = none → emptyText text = false →
        moderateText t jparse text (.space (.arr [.null, .str ss])) = parseErrorOutcome)
    ∧ (∀ (cfg : Config) (san : Str → Str) (sid : Str) (now : ℕ) (d : MsgIn) (raw : Str)
        (orac : AiOracle) (s : Session) (uname : Str),
        s.name = some uname → d.text = some raw →
        (san (jsTrim raw)).length ≠ 0 → ¬((san (jsTrim raw)).length > 1000) →
        (s.rl.filter (fun ts => ts > (now : ℤ) - 60000)).length < cfg.perMinute →
        ∃ rest, (messageStep cfg san sid now (some d) apiErrorOutcome orac s).2 =
          Out.broadcastOut ⟨mkId sid now, san (jsTrim raw), uname, false⟩ :: rest) := by
  refine ⟨fun he => ?_, fun htag => ?_, fun q he => ?_, fun ss hss hj he => ?_,
    fun cfg san sid now d raw orac s uname hname hdt hne hlen hrl => ?_⟩
  · simp [moderateText, he]
  · cases hx : (moderateText t jparse text u).isBlocked
    · rfl
    · exfalso
      have hh := moderate_blocked_head t jparse text u hx
      rcases htag with h | h | h <;> rw [h] at hh <;> exact absurd hh (by decide)
  · simp [moderateText, he, parseGradioClientResponse]
  · have : truthy (.str ss) = true := by simp [truthy, hss]
    simp [moderateText, he, parseGradioClientResponse, jget, this, hj]
  · have hcheck : checkRateLimit cfg.perMinute (now : ℤ) s.rl =
        (true, s.rl.filter (fun ts => ts > (now : ℤ) - 60000) ++ [(now : ℤ)]) := by
      unfold checkRateLimit
      rw [if_neg (by omega)]
    unfold messageStep
    rw [hname]
    dsimp only
    rw [hdt]
    dsimp only
    rw [if_neg hne, if_neg hlen, hcheck]
    dsimp only
    rw [if_neg (by decide : ¬(apiErrorOutcome.isBlocked = true))]
    exact ⟨_, rfl⟩

theorem claim_C2_witness :
    moderateText (1/2) (fun _ => none) "hi".toList .netError = apiErrorOutcome :=
  (claim_C2 (1/2) (fun _ => none) "hi".toList .netError).1 (by decide)

theorem claim_C7_witness :
    (addToHistory 1 [] { author := [], text := [], ts := 0 }).length ≤ 1 ∧
      List.foldl (addToHistory 1) []
        [{ author := [], text := "a".toList, ts := 0 },
         { author := [], text := "b".toList, ts := 1 }] =
        List.drop 1
          [{ author := [], text := "a".toList, ts := 0 },
           { author := [], text := "b".toList, ts := 1 }] :=
  ⟨(claim_C7 1 [] _ []).1 (by decide),
   (claim_C7 1 [] { author := [], text := [], ts := 0 } _).2 (by decide)⟩

/-! ### C4: registration gate -/

/-- A registration event that succeeds: a present name, non-empty after trim
and at most 20 characters. -/
def validReg : Ev → Prop
  | .reg _ (some raw) _ _ =>
    raw ≠ [] ∧ (jsTrim raw).length ≠ 0 ∧ (jsTrim raw).length ≤ 20
  | _ => False

/-- The deferred AI turn never touches the registered name. -/
theorem aiStep_name (cfg : Config) (sid : Str) (now : ℕ) (orac : AiOracle) (s : Session) :
    (aiStep cfg sid now orac s).1.name = s.name := by
  unfold aiStep
  repeat' split <;> try rfl

/-- The message handler never touches the registered name. -/
theorem messageStep_name (cfg : Config) (san : Str → Str) (sid : Str) (now : ℕ)
    (data : Option MsgIn) (mod : Outcome) (orac : AiOracle) (s : Session) :
    (messageStep cfg san sid now data mod orac s).1.name = s.name := by
  unfold messageStep
  repeat' split <;> try (first | rfl | simp [aiStep_name])

/-- An invalid registration emits exactly one error and leaves the session
unchanged. -/
theorem registerStep_invalid (cfg : Config) (sid : Str) (now : ℕ) (data : Option Str)
    (provider : Except Unit Str) (gm : Outcome) (s : Session)
    (h : ¬ validReg (Ev.reg now data provider gm)) :
    ∃ m, registerStep cfg sid now data provider gm s = (s, [Out.errOut m]) := by
  cases data with
  | none => exact ⟨_, rfl⟩
  | some raw =>
    simp only [validReg] at h
    by_cases hraw : raw = []
    · exact ⟨"Username is required".toList, by simp [registerStep, hraw]⟩
    · have hbad : (jsTrim raw).length = 0 ∨ (jsTrim raw).length > 20 := by
        by_contra hc
        push_neg at hc
        exact h ⟨hraw, hc.1, by omega⟩
      refine ⟨"Username must be between 1 and 20 characters".toList, ?_⟩
      simp only [registerStep]
      try dsimp only
      rw [if_neg hraw, if_pos hbad]

/-- A valid registration stores the trimmed name. -/
theorem registerStep_valid (cfg : Config) (sid : Str) (now : ℕ) (raw : Str)
    (provider : Except Unit Str) (gm : Outcome) (s : Session)
    (h1 : raw ≠ []) (h2 : (jsTrim raw).length ≠ 0) (h3 : (jsTrim raw).length ≤ 20) :
    (registerStep cfg sid now (some raw) provider gm s).1.name = some (jsTrim raw) := by
  simp only [registerStep]
  try dsimp only
  rw [if_neg h1, if_neg (by omega)]
  repeat' split <;> try rfl

/-- One step from an unnamed session with no valid registration stays
unnamed. -/
theorem step_name_none (cfg : Config) (san : Str → Str) (sid : Str) (s : Session) (ev : Ev)
    (hs : s.name = none) (hnv : ¬ validReg ev) : (step cfg san sid s ev).1.name = none := by
  cases ev with
  | reg now data provider gm =>
    obtain ⟨m, hm⟩ := registerStep_invalid cfg sid now data provider gm s hnv
    show (registerStep cfg sid now data provider gm s).1.name = none
    rw [hm]
    exact hs
  | msg now data mod orac =>
    show (messageStep cfg san sid now data mod orac s).1.name = none
    rw [messageStep_name]
    exact hs
  | disc => rfl

/-- A trace without a valid registration leaves the session unnamed. -/
theorem runFrom_name_none (cfg : Config) (san : Str → Str) (sid : Str) :
    ∀ (trace : List Ev) (s : Session), s.name = none →
      (∀ ev ∈ trace, ¬ validReg ev) → (runFrom cfg san sid s trace).name = none := by
  intro trace
  induction trace with
  | nil => intro s hs _; exact hs
  | cons ev tr ih =>
    intro s hs hall
    rw [runFrom]
    exact ih _ (step_name_none cfg san sid s ev hs (hall ev (List.mem_cons_self _ _)))
      (fun e he => hall e (List.mem_cons_of_mem _ he))

/-- Claim C4: no `message` event is accepted before a successful
`register_username`: any trace without a valid registration leaves the session
unnamed; an unnamed session answers every message with only the
"set your username first" error and no state change (nothing sanitized,
rate-limited, classified or broadcast); an invalid registration (missing,
empty-after-trim, or over-20-character name) emits an error and leaves the
whole session — in particular the registered name — unchanged; and a valid
registration stores the trimmed 1–20-character name. -/
theorem claim_C4 (cfg : Config) (san : Str → Str) (sid : Str) (trace : List Ev) :
    ((∀ ev ∈ trace, ¬ validReg ev) → (runFrom cfg san sid initSession trace).name = none)
    ∧ (∀ now data mod orac s, s.name = none →
        messageStep cfg san sid now data mod orac s =
          (s, [Out.errOut "Please set your username first".toList]))
    ∧ (∀ now data provider gm s, ¬ validReg (Ev.reg now data provider gm) →
        ∃ m, registerStep cfg sid now data provider gm s = (s, [Out.errOut m]))
    ∧ (∀ now raw provider gm s, validReg (Ev.reg now (some raw) provider gm) →
        (registerStep cfg sid now (some raw) provider gm s).1.name = some (jsTrim raw) ∧
          1 ≤ (jsTrim raw).length ∧ (jsTrim raw).length ≤ 20) := by
  refine ⟨fun hall => runFrom_name_none cfg san sid trace initSession rfl hall,
    fun now data mod orac s hs => ?_,
    fun now data provider gm s h => registerStep_invalid cfg sid now data provider gm s h,
    fun now raw provider gm s h => ?_⟩
  · simp [messageStep, hs]
  · obtain ⟨h1, h2, h3⟩ := h
    exact ⟨registerStep_valid cfg sid now raw provider gm s h1 h2 h3, by omega, h3⟩

theorem claim_C4_witness :
    messageStep ⟨false, 200, 5, 30⟩ id "s".toList 5
        (some ⟨some "hi".toList, none⟩) ⟨false, "OK".toList, none⟩
        ⟨.error (), ⟨false, "OK".toList, none⟩⟩ initSession =
      (initSession, [Out.errOut "Please set your username first".toList]) :=
  (claim_C4 ⟨false, 200, 5, 30⟩ id "s".toList []).2.1 5
    (some ⟨some "hi".toList, none⟩) ⟨false, "OK".toList, none⟩
    ⟨.error (), ⟨false, "OK".toList, none⟩⟩ initSession rfl

/-! ### C10: blocked text never enters conversation history -/

/-- How a history entry can legitimately arise from one event: as the
sanitized text of a message whose moderation did **not** block it, as an AI
turn whose own moderation passed, or as a greeting whose moderation passed. -/
def entryOrigin (cfg : Config) (san : Str → Str) : Ev → Entry → Prop
  | .msg now data mod orac, e =>
    (mod.isBlocked = false ∧ e.ts = now ∧
      ∃ mi raw, data = some mi ∧ mi.text = some raw ∧ e.text = san (jsTrim raw))
    ∨ (e.author = aiAuthor ∧ e.ts = now ∧ ∃ p, orac.provider = .ok p ∧
        orac.aiMod.isBlocked = false ∧ e.text = postProcess cfg.maxRespLen p)
  | .reg now data provider gm, e =>
    e.author = aiAuthor ∧ e.ts = now ∧ gm.isBlocked = false ∧
      ∃ raw g, data = some raw ∧ generateGreeting true (jsTrim raw) provider = some g ∧
        e.text = g
  | .disc, _ => False

/-- Membership after one history append. -/
theorem mem_addToHistory {n : ℕ} {h : List Entry} {x e : Entry}
    (hm : e ∈ addToHistory n h x) : e ∈ h ∨ e = x := by
  unfold addToHistory at hm
  dsimp only at hm
  split at hm
  · rcases List.mem_append.mp (List.mem_of_mem_tail hm) with h1 | h2
    · exact Or.inl h1
    · exact Or.inr (List.mem_singleton.mp h2)
  · rcases List.mem_append.mp hm with h1 | h2
    · exact Or.inl h1
    · exact Or.inr (List.mem_singleton.mp h2)

/-- Any entry the deferred AI turn adds is a moderation-passed AI response. -/
theorem aiStep_hist_mem {cfg : Config} {sid : Str} {now : ℕ} {orac : AiOracle} {s : Session}
    {e : Entry} (hm : e ∈ (aiStep cfg sid now orac s).1.hist) :
    e ∈ s.hist ∨
      (e.author = aiAuthor ∧ e.ts = now ∧ ∃ p, orac.provider = .ok p ∧
        orac.aiMod.isBlocked = false ∧ e.text = postProcess cfg.maxRespLen p) := by
  unfold aiStep at hm
  by_cases hai : cfg.aiEnabled
  · rw [if_pos hai] at hm
    rcases hrl : checkRateLimit 10 (now : ℤ) s.aiRl with ⟨ok, l⟩
    rw [hrl] at hm
    cases ok
    · exact Or.inl hm
    · rcases hprov : orac.provider with u | p
      · rw [hprov] at hm
        simp only [generateAIResponse, if_true, Except.map] at hm
        exact Or.inl hm
      · rw [hprov] at hm
        simp only [generateAIResponse, if_true, Except.map] at hm
        split at hm
        · exact Or.inl hm
        · split at hm
          · exact Or.inl hm
          · next hbl =>
            rcases mem_addToHistory hm with h1 | h2
            · exact Or.inl h1
            · subst h2
              exact Or.inr ⟨rfl, rfl, p, rfl, Bool.not_eq_true _ ▸ Bool.of_not_eq_true hbl,
                rfl⟩
  · rw [if_neg hai] at hm
    exact Or.inl hm

/-- Any entry the registration handler adds is a moderation-passed greeting. -/
theorem registerStep_hist_mem {cfg : Config} {sid : Str} {now : ℕ} {data : Option Str}
    {provider : Except Unit Str} {gm : Outcome} {s : Session} {e : Entry}
    (hm : e ∈ (registerStep cfg sid now data provider gm s).1.hist) :
    e ∈ s.hist ∨
      (e.author = aiAuthor ∧ e.ts = now ∧ gm.isBlocked = false ∧
        ∃ raw g, data = some raw ∧ generateGreeting true (jsTrim raw) provider = some g ∧
          e.text = g) := by
  cases data with
  | none => exact Or.inl hm
  | some raw =>
    simp only [registerStep] at hm
    try dsimp only at hm
    split at hm
    · exact Or.inl hm
    · split at hm
      · exact Or.inl hm
      · split at hm
        · simp only [generateGreeting, if_true] at hm
          split at hm
          · next hcond =>
            rcases mem_addToHistory hm with h1 | h2
            · exact Or.inl h1
            · subst h2
              exact Or.inr ⟨rfl, rfl, hcond.2, raw, _, rfl, rfl, rfl⟩
          · exact Or.inl hm
        · exact Or.inl hm

/-- Any entry the message handler adds is either the non-blocked user turn or
a moderation-passed AI turn. -/
theorem messageStep_hist_mem {cfg : Config} {san : Str → Str} {sid : Str} {now : ℕ}
    {data : Option MsgIn} {mod : Outcome} {orac : AiOracle} {s : Session} {e : Entry}
    (hm : e ∈ (messageStep cfg san sid now data mod orac s).1.hist) :
    e ∈ s.hist ∨
      (mod.isBlocked = false ∧ e.ts = now ∧
        ∃ mi raw, data = some mi ∧ mi.text = some raw ∧ e.text = san (jsTrim raw))
      ∨ (e.author = aiAuthor ∧ e.ts = now ∧ ∃ p, orac.provider = .ok p ∧
          orac.aiMod.isBlocked = false ∧ e.text = postProcess cfg.maxRespLen p) := by
  unfold messageStep at hm
  rcases hname : s.name with _ | u
  · rw [hname] at hm
    exact Or.inl hm
  · rw [hname] at hm
    cases data with
    | none => exact Or.inl hm
    | some d =>
      dsimp only at hm
      rcases hdt : d.text with _ | raw
      · rw [hdt] at hm
        exact Or.inl hm
      · rw [hdt] at hm
        dsimp only at hm
        split at hm
        · exact Or.inl hm
        · split at hm
          · exact Or.inl hm
          · rcases hrl : checkRateLimit (cfg.perMinute) (now : ℤ) s.rl with ⟨ok, rl'⟩
            rw [hrl] at hm
            cases ok
            · exact Or.inl hm
            · dsimp only at hm
              split at hm
              · next hbl =>
                rcases aiStep_hist_mem hm with h1 | h2
                · exact Or.inl h1
                · exact Or.inr (Or.inr h2)
              · next hbl =>
                rcases aiStep_hist_mem hm with h1 | h2
                · rcases mem_addToHistory h1 with h3 | h4
                  · exact Or.inl h3
                  · subst h4
                    exact Or.inr (Or.inl ⟨Bool.of_not_eq_true hbl, rfl, d, raw, rfl, hdt,
                      rfl⟩)
                · exact Or.inr (Or.inr h2)

/-- One step adds only legitimately originated entries. -/
theorem step_hist_mem {cfg : Config} {san : Str → Str} {sid : Str} {s : Session} {ev : Ev}
    {e : Entry} (hm : e ∈ (step cfg san sid s ev).1.hist) :
    e ∈ s.hist ∨ entryOrigin cfg san ev e := by
  cases ev with
  | reg now data provider gm => exact registerStep_hist_mem hm
  | msg now data mod orac =>
    rcases messageStep_hist_mem hm with h | h | h
    · exact Or.inl h
    · exact Or.inr (Or.inl h)
    · exact Or.inr (Or.inr h)
  | disc => cases hm

/-- Every history entry after a trace traces back to some event of the trace
with a legitimate origin. -/
theorem hist_origin (cfg : Config) (san : Str → Str) (sid : Str) :
    ∀ (trace : List Ev) (s : Session) (e : Entry),
      e ∈ (runFrom cfg san sid s trace).hist →
      e ∈ s.hist ∨ ∃ ev ∈ trace, entryOrigin cfg san ev e := by
  intro trace
  induction trace with
  | nil => intro s e hm; exact Or.inl hm
  | cons ev tr ih =>
    intro s e hm
    rw [runFrom] at hm
    rcases ih _ e hm with h1 | ⟨ev', hev', ho⟩
    · rcases step_hist_mem h1 with h2 | ho
      · exact Or.inl h2
      · exact Or.inr ⟨ev, List.mem_cons_self _ _, ho⟩
    · exact Or.inr ⟨ev', List.mem_cons_of_mem _ hev', ho⟩

/-- Claim C10: after any event trace on a fresh connection, every entry of the
conversation history originates from a message whose moderation did not block
it, or from an AI response/greeting that itself passed moderation — text that
moderation blocked never becomes a history turn (and hence never reaches the
AI prompt context built from that history). -/
theorem claim_C10 (cfg : Config) (san : Str → Str) (sid : Str) (trace : List Ev) (e : Entry)
    (he : e ∈ (runFrom cfg san sid initSession trace).hist) :
    ∃ ev ∈ trace, entryOrigin cfg san ev e := by
  rcases hist_origin cfg san sid trace initSession e he with h | h
  · cases h
  · exact h

theorem claim_C10_witness :
    ∃ ev ∈ [Ev.reg 1 (some "u".toList) (.error ()) ⟨false, "OK".toList, none⟩,
            Ev.msg 5 (some ⟨some "hi".toList, none⟩) ⟨false, "OK".toList, none⟩
              ⟨.error (), ⟨false, "OK".toList, none⟩⟩],
      entryOrigin ⟨false, 200, 5, 30⟩ id ev ⟨"u".toList, "hi".toList, 5⟩ :=
  claim_C10 ⟨false, 200, 5, 30⟩ id "s".toList
    [Ev.reg 1 (some "u".toList) (.error ()) ⟨false, "OK".toList, none⟩,
     Ev.msg 5 (some ⟨some "hi".toList, none⟩) ⟨false, "OK".toList, none⟩
       ⟨.error (), ⟨false, "OK".toList, none⟩⟩]
    ⟨"u".toList, "hi".toList, 5⟩ (by decide)

end ChatMod
